import Mathlib

/-!
Verification of the spdk silent-payment scanner core against its specification.

The development shallowly embeds the scanner pipeline of `spdk-core`
(`scanner/scanner.rs`, `scanner/sync_scanner.rs`, `scanner/logic.rs`) and the
Blindbit backends (`backend-blindbit-native/src/backend.rs`,
`backend-blindbit-native/src/backend_async.rs`,
`backend-blindbit-native-non-async/src/backend.rs` + `thread_pool.rs`).

Modelling conventions:
* bytes are `Nat`, byte strings are `List Nat`; Rust fixed arrays (`[u8; 32]`)
  become lists with length hypotheses where a theorem needs them;
* `HashMap` becomes an association list with insert-replaces-existing-key
  semantics (`mapInsert` / `mapLookup`); `HashSet` becomes a duplicate-free
  list built with `setInsert`;
* external effects (the remote indexer, SHA-256, BIP-158 `match_any`, the
  BIP-352 receiver) are fields of a `ScanEnv` record of oracle functions: the
  claims under test are about which calls the scanner makes and how it
  combines their results, not about the crypto primitives themselves;
* wall-clock readings (`Instant::elapsed`) and reads of the shared atomic
  cancellation flag are oracles supplied per loop iteration as `List Bool`;
* calls with observable effects (backend `utxos` / `spent_index`, the
  `Updater` record and save methods) are logged as `Event`s, so theorems about
  "X is called / persisted" are membership statements on the event trace.

The async scanner (`scanner.rs`) and the sync scanner (`sync_scanner.rs`) are
line-for-line identical up to `async`/`await`; one embedding covers both.
-/

namespace Spdk

/-- An outpoint: `bitcoin::OutPoint`. `txid` is a 32-byte transaction id. -/
structure OutPoint where
  txid : List Nat
  vout : Nat
deriving DecidableEq

/-- Filter data as used by the scanner (`FilterData { block_hash, data }`);
the struct definition lives in the crate's `types` module, fields taken from
its use sites in `scanner.rs` and the backends. -/
structure FilterData where
  block_hash : List Nat
  data : List Nat
deriving DecidableEq

/-- Per-height bundle (`BlockData`), fields from its use sites:
`blkheight`, `blkhash`, `tweaks`, `new_utxo_filter`, `spent_filter`.
Tweaks (`secp256k1::PublicKey`) are opaque to every claim and modelled as
`Nat`. -/
structure BlockData where
  blkheight : Nat
  blkhash : List Nat
  tweaks : List Nat
  new_utxo_filter : FilterData
  spent_filter : FilterData
deriving DecidableEq

/-- One entry of the `utxos/{h}` response (`UtxoData`), fields from use sites:
txid, vout, value, scriptpubkey, spent. -/
structure UtxoData where
  txid : List Nat
  vout : Nat
  value : Nat
  scriptpubkey : List Nat
  spent : Bool
deriving DecidableEq

/-- Spend status of an owned output (`updater/structs.rs`). -/
inductive OutputSpendStatus where
  | Unspent : OutputSpendStatus
  | Spent : List Nat → OutputSpendStatus
  | Mined : List Nat → OutputSpendStatus
deriving DecidableEq

/-- An owned output record (`updater/structs.rs::OwnedOutput`). The scalar
tweak is modelled by its 32 big-endian bytes, labels by `Option Nat`. -/
structure OwnedOutput where
  blockheight : Nat
  tweak : List Nat
  amount : Nat
  script : List Nat
  label : Option Nat
  spend_status : OutputSpendStatus
deriving DecidableEq

/-- Association-list lookup, keyed on decidable equality; models
`HashMap::get`. -/
def mapLookup {α β : Type} [DecidableEq α] : List (α × β) → α → Option β
  | [], _ => none
  | (k, v) :: rest, k' => if k = k' then some v else mapLookup rest k'

/-- Association-list insert that replaces an existing binding of the key;
models `HashMap::insert`. -/
def mapInsert {α β : Type} [DecidableEq α] : List (α × β) → α → β → List (α × β)
  | [], k, v => [(k, v)]
  | (k', v') :: rest, k, v =>
      if k' = k then (k, v) :: rest else (k', v') :: mapInsert rest k v

/-- Set-insert on a duplicate-free list; models `HashSet::insert`. -/
def setInsert {α : Type} [DecidableEq α] (s : List α) (a : α) : List α :=
  if a ∈ s then s else s ++ [a]

/-- Add every element of `l` to the set `s`; models `HashSet::extend`. -/
def setExtend {α : Type} [DecidableEq α] (s : List α) (l : List α) : List α :=
  l.foldl setInsert s

/-- Little-endian byte serialization of a `u32` (`u32::to_le_bytes`). -/
def leBytes4 (n : Nat) : List Nat :=
  [n % 256, n / 256 % 256, n / 65536 % 256, n / 16777216 % 256]

/-- Write `src` into `arr` starting at index `start`; models
`arr[start..start+src.length].copy_from_slice(src)` on an array that is long
enough. -/
def spliceWrite (arr : List Nat) (start : Nat) (src : List Nat) : List Nat :=
  arr.take start ++ src ++ arr.drop (start + src.length)

/-- The 68-byte preimage built by `logic::get_input_hashes`: a zeroed
`[u8; 68]` spliced with the txid at 0, `vout.to_le_bytes()` at 32 and the
block hash at 36. -/
def input_hash_preimage (op : OutPoint) (blkhash : List Nat) : List Nat :=
  let arr := List.replicate 68 0
  let arr := spliceWrite arr 0 op.txid
  let arr := spliceWrite arr 32 (leBytes4 op.vout)
  spliceWrite arr 36 blkhash

/-- Embedding of `logic::get_input_hashes`: fold over the owned outpoints,
inserting `first8(sha256(preimage)) ↦ outpoint` into a fresh map. `sha256` is
the oracle for `bitcoin::hashes::sha256`. -/
def get_input_hashes (sha256 : List Nat → List Nat)
    (owned : List OutPoint) (blkhash : List Nat) : List (List Nat × OutPoint) :=
  owned.foldl
    (fun m op => mapInsert m ((sha256 (input_hash_preimage op blkhash)).take 8) op) []

/-- Embedding of `logic::check_block_outputs`: map each candidate spk to
`spk[2..]` and query `match_any` unless the query list is empty, in which
case return `false`. `matchAny` is the oracle for
`BlockFilter::match_any` (filter bytes, block hash, query items). -/
def check_block_outputs (matchAny : List Nat → List Nat → List (List Nat) → Bool)
    (filterBytes blkhash : List Nat) (candidate_spks : List (List Nat)) : Bool :=
  let output_keys := candidate_spks.map (fun spk => spk.drop 2)
  if output_keys.isEmpty then false else matchAny filterBytes blkhash output_keys

/-- Embedding of `logic::check_block_inputs`: query `match_any` with the
8-byte input hashes unless the list is empty, in which case return `false`. -/
def check_block_inputs (matchAny : List Nat → List Nat → List (List Nat) → Bool)
    (filterBytes blkhash : List Nat) (input_hashes : List (List Nat)) : Bool :=
  if input_hashes.isEmpty then false else matchAny filterBytes blkhash input_hashes

/-- Embedding of `logic::collect_found_outputs`: turn the matcher's
`(label, utxo, tweak)` triples into a map outpoint ↦ `OwnedOutput` with
`spend_status = Unspent`. -/
def collect_found_outputs (blkheight : Nat)
    (found : List (Option Nat × UtxoData × List Nat)) :
    List (OutPoint × OwnedOutput) :=
  found.foldl
    (fun res x =>
      mapInsert res ⟨x.2.1.txid, x.2.1.vout⟩
        { blockheight := blkheight
          tweak := x.2.2
          amount := x.2.1.value
          script := x.2.1.scriptpubkey
          label := x.1
          spend_status := OutputSpendStatus.Unspent })
    []

/-- Embedding of `logic::collect_spent_outpoints`: look each spent-index entry
up in the input-hash map and collect the outpoints of the entries that hit. -/
def collect_spent_outpoints (spent_data : List (List Nat))
    (input_hashes_map : List (List Nat × OutPoint)) : List OutPoint :=
  spent_data.foldl
    (fun res spent =>
      match mapLookup input_hashes_map spent with
      | some outpoint => setInsert res outpoint
      | none => res)
    []

/-- Oracle record for everything outside the scanner's own logic: the hash
and filter primitives, the key-derivation map
(`SpClient::get_script_to_secret_map`, spk ↦ ECDH secret), the backend
endpoints (`utxos`, `spent_index`) and the BIP-352 matcher
(`logic::find_owned_in_utxos`, whose crypto internals no claim depends on). -/
structure ScanEnv where
  sha256 : List Nat → List Nat
  matchAny : List Nat → List Nat → List (List Nat) → Bool
  scriptToSecretMap : List Nat → List (List Nat × Nat)
  utxos : Nat → List UtxoData
  spentIndex : Nat → List (List Nat)
  findOwned : List UtxoData → List (List Nat × Nat) → List (Option Nat × UtxoData × List Nat)

/-- Observable effects of one scan, in program order: backend data fetches and
`Updater` calls (`record_block_outputs`, `record_block_inputs`,
`record_scan_progress`, `save_to_persistent_storage`). -/
inductive Event where
  | callUtxos : Nat → Event
  | callSpentIndex : Nat → Event
  | recordOutputs : Nat → List Nat → List (OutPoint × OwnedOutput) → Event
  | recordInputs : Nat → List Nat → List OutPoint → Event
  | recordProgress : Nat → Nat → Nat → Event
  | save : Event
deriving DecidableEq

/-- Embedding of `SpScanner::process_block_outputs`: return early on an empty
tweak list; otherwise derive the secrets map, probe the new-UTXO filter with
the candidate spks, and only on a match fetch `utxos(h)` and run the matcher.
The returned event list records the backend fetch. -/
def process_block_outputs (env : ScanEnv) (blkheight : Nat) (tweaks : List Nat)
    (new_utxo_filter : FilterData) : List (OutPoint × OwnedOutput) × List Event :=
  if tweaks.isEmpty then ([], [])
  else
    let secrets_map := env.scriptToSecretMap tweaks
    let candidate_spks := secrets_map.map Prod.fst
    if check_block_outputs env.matchAny new_utxo_filter.data new_utxo_filter.block_hash
        candidate_spks then
      let utxos := env.utxos blkheight
      let found := env.findOwned utxos secrets_map
      (collect_found_outputs blkheight found, [Event.callUtxos blkheight])
    else ([], [])

/-- Embedding of `SpScanner::process_block_inputs`: build the input-hash map
from the current owned set, probe the spent filter with its keys, and only on
a match fetch `spent_index(h)` and collect the spent outpoints. -/
def process_block_inputs (env : ScanEnv) (owned : List OutPoint) (blkheight : Nat)
    (spent_filter : FilterData) : List OutPoint × List Event :=
  let blkhash := spent_filter.block_hash
  let input_hashes_map := get_input_hashes env.sha256 owned blkhash
  if check_block_inputs env.matchAny spent_filter.data blkhash
      (input_hashes_map.map Prod.fst) then
    let spent := env.spentIndex blkheight
    (collect_spent_outpoints spent input_hashes_map, [Event.callSpentIndex blkheight])
  else ([], [])

/-- Embedding of `SpScanner::process_block`: process outputs, extend the owned
set with the found outpoints, then process inputs against the extended set,
then retain only the outpoints not found spent. Returns
`((found_outputs, found_inputs), owned_after, events)`. -/
def process_block (env : ScanEnv) (owned : List OutPoint) (bd : BlockData) :
    (List (OutPoint × OwnedOutput) × List OutPoint) × List OutPoint × List Event :=
  let pbo := process_block_outputs env bd.blkheight bd.tweaks bd.new_utxo_filter
  let outs := pbo.1
  let owned1 := setExtend owned (outs.map Prod.fst)
  let pbi := process_block_inputs env owned1 bd.blkheight bd.spent_filter
  let ins := pbi.1
  let owned2 := owned1.filter (fun op => decide (op ∉ ins))
  ((outs, ins), owned2, pbo.2 ++ pbi.2)

/-- Embedding of one non-interrupted iteration of the
`SpScanner::process_blocks` loop body after the interrupt check: compute the
save flag (`blkheight == end`, the 30-second timer reading supplied as the
`elapsed` oracle, or non-empty findings), record non-empty findings, record
progress, and save when the flag is set. -/
def process_iteration (env : ScanEnv) (startH endH : Nat) (owned : List OutPoint)
    (bd : BlockData) (elapsed : Bool) :
    (List (OutPoint × OwnedOutput) × List OutPoint) × List OutPoint × List Event :=
  let pb := process_block env owned bd
  let outs := pb.1.1
  let ins := pb.1.2
  let save := (decide (bd.blkheight = endH) || elapsed) || !outs.isEmpty || !ins.isEmpty
  let evs := pb.2.2
      ++ (if outs.isEmpty then [] else [Event.recordOutputs bd.blkheight bd.blkhash outs])
      ++ (if ins.isEmpty then [] else [Event.recordInputs bd.blkheight bd.blkhash ins])
      ++ [Event.recordProgress startH bd.blkheight endH]
      ++ (if save then [Event.save] else [])
  ((outs, ins), pb.2.1, evs)

/-- Embedding of `SpScanner::process_blocks`: fold over the block-data stream
items. An `Err` item is propagated immediately (`let blockdata = blockdata?`).
Then the cancellation flag is read (`interrupt_requested`, oracle list
`ints`); if set, the state is saved and the loop returns `Ok` without touching
the bundle. Otherwise the iteration body runs with the 30-second timer oracle
`elas` and the loop continues on the updated owned set. -/
def process_blocks (env : ScanEnv) (startH endH : Nat) :
    List OutPoint → List (Except Unit BlockData) → List Bool → List Bool →
      Except Unit Unit × List OutPoint × List Event
  | owned, [], _, _ => (Except.ok (), owned, [])
  | owned, Except.error e :: _, _, _ => (Except.error e, owned, [])
  | owned, Except.ok bd :: rest, ints, elas =>
    if ints.headD false then
      (Except.ok (), owned, [Event.save])
    else
      let it := process_iteration env startH endH owned bd (elas.headD false)
      let r := process_blocks env startH endH it.2.1 rest ints.tail elas.tail
      (r.1, r.2.1, it.2.2 ++ r.2.2)

/-- Embedding of `SpScanner::scan_blocks`: reject `start > end`, then run
`process_blocks` on the backend's block-data stream, which is supplied here as
the list of its items. -/
def scan_blocks (env : ScanEnv) (startH endH : Nat) (owned : List OutPoint)
    (items : List (Except Unit BlockData)) (ints elas : List Bool) :
    Except Unit Unit × List OutPoint × List Event :=
  if endH < startH then (Except.error (), owned, [])
  else process_blocks env startH endH owned items ints elas

/-- Inclusive height range `a..=b` as a list. -/
def rangeIncl (a b : Nat) : List Nat :=
  List.range' a (b + 1 - a)

/-- Heights requested by the synchronous
`backend-blindbit-native/src/backend.rs::get_block_data_for_range`: the code
replaces the range by `1..=end` when it starts at 0 (blindbit returns error
500 for the genesis block), then fetches every height of the range in order. -/
def get_block_data_for_range_heights (startH endH : Nat) : List Nat :=
  if startH = 0 then rangeIncl 1 endH else rangeIncl startH endH

/-- Heights requested by the async
`backend-blindbit-native/src/backend_async.rs::get_block_data_stream`: the
stream maps the fetch over the range as given, with no adjustment. -/
def get_block_data_stream_heights (startH endH : Nat) : List Nat :=
  rangeIncl startH endH

/-- Semantics of `futures::stream::iter(range).map(fetch).buffered(200)` as
used by the async backend: the `buffered` adapter polls up to 200 futures
concurrently but yields their outputs in the order of the underlying
iterator, so the emission is `fetch` mapped over the submitted heights. -/
def buffered_stream_emission {α : Type} (heights : List Nat) (fetch : Nat → α) : List α :=
  heights.map fetch

/-- Semantics of
`backend-blindbit-native-non-async/src/backend.rs::get_block_data_for_range_thread_pool`
with `thread_pool.rs`: the tasks for the heights are submitted to the pool in
range order, every task runs on its own worker (pool size 200), and each
worker sends its result on one shared mpsc channel when its HTTP fetches
finish; the returned iterator (`receiver.into_iter()`) yields in send order.
Which task finishes first depends on network latency, so the emission order
is the completion `schedule`: a permutation of the task indices giving the
order in which the workers send. -/
def thread_pool_emission {α : Type} (heights : List Nat) (fetch : Nat → α)
    (schedule : List Nat) : List α :=
  schedule.filterMap (fun i => (heights.get? i).map fetch)

/-- Inert oracle environment used by concrete witnesses: empty server
responses, a filter that never matches. -/
def trivEnv : ScanEnv where
  sha256 := fun _ => List.replicate 32 0
  matchAny := fun _ _ _ => false
  scriptToSecretMap := fun _ => []
  utxos := fun _ => []
  spentIndex := fun _ => []
  findOwned := fun _ _ => []

/-- Block-bundle fixture with no tweaks and empty filters. -/
def trivBlock : BlockData where
  blkheight := 3
  blkhash := List.replicate 32 1
  tweaks := []
  new_utxo_filter := { block_hash := List.replicate 32 1, data := [] }
  spent_filter := { block_hash := List.replicate 32 1, data := [] }

/-- UTXO fixture: a spendable output at txid `11…1`, vout 0. -/
def sbUtxo : UtxoData where
  txid := List.replicate 32 1
  vout := 0
  value := 1000
  scriptpubkey := List.replicate 34 2
  spent := false

/-- The outpoint of `sbUtxo`. -/
def sbOutPoint : OutPoint where
  txid := List.replicate 32 1
  vout := 0

/-- Oracle environment in which block 5 both creates and spends `sbUtxo`:
the filters always match, the matcher finds `sbUtxo`, and the spent index
lists its digest under the constant `sha256` oracle. -/
def sbEnv : ScanEnv where
  sha256 := fun _ => List.replicate 32 9
  matchAny := fun _ _ _ => true
  scriptToSecretMap := fun _ => [(List.replicate 34 2, 7)]
  utxos := fun _ => [sbUtxo]
  spentIndex := fun _ => [List.replicate 8 9]
  findOwned := fun _ _ => [(none, sbUtxo, List.replicate 32 3)]

/-- Block-bundle fixture with one tweak, used with `sbEnv`. -/
def sbBlock : BlockData where
  blkheight := 5
  blkhash := List.replicate 32 4
  tweaks := [1]
  new_utxo_filter := { block_hash := List.replicate 32 4, data := [] }
  spent_filter := { block_hash := List.replicate 32 4, data := [] }

/-- Identity oracle standing in for `sha256` in witnesses, so that the 8-byte
digest of an outpoint is the first 8 bytes of its 68-byte preimage. -/
def idSha : List Nat → List Nat := fun l => l

/-- Outpoint fixture for the digest witness. -/
def c7Op : OutPoint where
  txid := List.replicate 32 5
  vout := 1

/-! Helper lemmas about the association-list and set operations. -/

theorem mapLookup_mapInsert_self {α β : Type} [DecidableEq α]
    (m : List (α × β)) (k : α) (v : β) :
    mapLookup (mapInsert m k v) k = some v := by
  induction m with
  | nil => simp [mapInsert, mapLookup]
  | cons p rest ih =>
    by_cases h : p.1 = k
    · simp [mapInsert, h, mapLookup]
    · simp [mapInsert, h, mapLookup, ih]

theorem mapLookup_mapInsert_ne {α β : Type} [DecidableEq α]
    (m : List (α × β)) (k k' : α) (v : β) (h : k ≠ k') :
    mapLookup (mapInsert m k v) k' = mapLookup m k' := by
  induction m with
  | nil => simp [mapInsert, mapLookup, h]
  | cons p rest ih =>
    by_cases hp : p.1 = k
    · simp [mapInsert, hp, mapLookup, h]
    · simp [mapInsert, hp, mapLookup, ih]

theorem mapLookup_mem_values {α β : Type} [DecidableEq α]
    (m : List (α × β)) (k : α) (v : β) (h : mapLookup m k = some v) :
    v ∈ m.map Prod.snd := by
  induction m with
  | nil => simp [mapLookup] at h
  | cons p rest ih =>
    by_cases hp : p.1 = k
    · simp only [mapLookup, hp, if_pos] at h
      simp [← Option.some_inj.mp h]
    · simp only [mapLookup, hp, if_neg, ite_false] at h
      simp [ih h]

theorem mapLookup_eq_none_of_keys_ne {α β : Type} [DecidableEq α]
    (m : List (α × β)) (k : α) (h : ∀ p ∈ m, p.1 ≠ k) :
    mapLookup m k = none := by
  induction m with
  | nil => rfl
  | cons p rest ih =>
    simp only [mapLookup, if_neg (h p (List.mem_cons_self p rest))]
    exact ih fun q hq => h q (List.mem_cons_of_mem p hq)

theorem mem_setInsert {α : Type} [DecidableEq α] (s : List α) (a b : α) :
    a ∈ setInsert s b ↔ a ∈ s ∨ a = b := by
  by_cases h : b ∈ s
  · simp only [setInsert, if_pos h]
    exact ⟨Or.inl, fun hc => hc.elim id (fun he => he ▸ h)⟩
  · simp [setInsert, if_neg h]

theorem mapLookup_foldl_insert_of_ne {α β : Type} [DecidableEq α]
    (f : β → α) (l : List β) (acc : List (α × β)) (k : α)
    (h : ∀ b ∈ l, f b ≠ k) :
    mapLookup (l.foldl (fun m b => mapInsert m (f b) b) acc) k = mapLookup acc k := by
  induction l generalizing acc with
  | nil => rfl
  | cons a t ih =>
    simp only [List.foldl_cons]
    rw [ih _ fun b hb => h b (List.mem_cons_of_mem a hb),
      mapLookup_mapInsert_ne _ _ _ _ (h a (List.mem_cons_self a t))]

theorem mapLookup_foldl_insert_self {α β : Type} [DecidableEq α]
    (f : β → α) (l : List β) (acc : List (α × β)) (b : β)
    (hmem : b ∈ l) (hinj : ∀ b' ∈ l, f b' = f b → b' = b) :
    mapLookup (l.foldl (fun m x => mapInsert m (f x) x) acc) (f b) = some b := by
  induction l generalizing acc with
  | nil => cases hmem
  | cons a t ih =>
    simp only [List.foldl_cons]
    by_cases hbt : b ∈ t
    · exact ih _ hbt fun b' hb' => hinj b' (List.mem_cons_of_mem a hb')
    · have hab : a = b := by
        rcases List.mem_cons.mp hmem with h | h
        · exact h.symm
        · exact absurd h hbt
      subst hab
      have hne : ∀ x ∈ t, f x ≠ f a := by
        intro x hx hfx
        exact hbt ((hinj x (List.mem_cons_of_mem a hx) hfx) ▸ hx)
      rw [mapLookup_foldl_insert_of_ne f t _ _ hne, mapLookup_mapInsert_self]

theorem foldl_insert_values_mem {α β : Type} [DecidableEq α]
    (f : β → α) (l : List β) (acc : List (α × β)) (v : β)
    (h : v ∈ (l.foldl (fun m x => mapInsert m (f x) x) acc).map Prod.snd) :
    v ∈ acc.map Prod.snd ∨ v ∈ l := by
  induction l generalizing acc with
  | nil => exact Or.inl h
  | cons a t ih =>
    simp only [List.foldl_cons] at h
    rcases ih _ h with hacc | hmem
    · -- membership in the accumulator extended with `a`
      have : v = a ∨ v ∈ acc.map Prod.snd := by
        clear ih h
        induction acc with
        | nil => simpa [mapInsert] using hacc
        | cons p rest ihp =>
          by_cases hp : p.1 = f a
          · simp only [mapInsert, hp, if_pos] at hacc
            rcases List.mem_map.mp hacc with ⟨q, hq, hqv⟩
            rcases List.mem_cons.mp hq with h1 | h1
            · exact Or.inl (by rw [← hqv, h1])
            · exact Or.inr (List.mem_map.mpr ⟨q, List.mem_cons_of_mem p h1, hqv⟩)
          · simp only [mapInsert, hp, ite_false, List.map_cons, List.mem_cons] at hacc
            rcases hacc with h1 | h1
            · exact Or.inr (by simp [h1])
            · rcases ihp h1 with h2 | h2
              · exact Or.inl h2
              · exact Or.inr (by simp only [List.map_cons, List.mem_cons]; exact Or.inr h2)
      rcases this with h1 | h1
      · exact Or.inr (h1 ▸ List.mem_cons_self a t)
      · exact Or.inl h1
    · exact Or.inr (List.mem_cons_of_mem a hmem)

theorem get_input_hashes_values_owned (sha : List Nat → List Nat)
    (owned : List OutPoint) (blkhash : List Nat) (op : OutPoint)
    (h : op ∈ (get_input_hashes sha owned blkhash).map Prod.snd) : op ∈ owned := by
  have := foldl_insert_values_mem
    (fun o => (sha (input_hash_preimage o blkhash)).take 8) owned [] op h
  simpa using this

theorem collect_spent_foldl_mem (m : List (List Nat × OutPoint))
    (spent : List (List Nat)) (acc : List OutPoint) (op : OutPoint)
    (h : op ∈ spent.foldl (fun res s =>
        match mapLookup m s with
        | some o => setInsert res o
        | none => res) acc) :
    op ∈ acc ∨ ∃ k, mapLookup m k = some op := by
  induction spent generalizing acc with
  | nil => exact Or.inl h
  | cons e t ih =>
    simp only [List.foldl_cons] at h
    rcases ih _ h with hacc | hex
    · cases hl : mapLookup m e with
      | none => rw [hl] at hacc; exact Or.inl hacc
      | some o =>
        rw [hl] at hacc
        rcases (mem_setInsert acc op o).mp hacc with h1 | h1
        · exact Or.inl h1
        · exact Or.inr ⟨e, h1 ▸ hl⟩
    · exact Or.inr hex

theorem collect_spent_outpoints_mem_values (spent : List (List Nat))
    (m : List (List Nat × OutPoint)) (op : OutPoint)
    (h : op ∈ collect_spent_outpoints spent m) :
    ∃ k, mapLookup m k = some op := by
  rcases collect_spent_foldl_mem m spent [] op h with hacc | hex
  · cases hacc
  · exact hex

theorem collect_spent_foldl_filter (m : List (List Nat × OutPoint))
    (spent : List (List Nat)) (acc : List OutPoint)
    (hk : ∀ p ∈ m, p.1.length = 8) :
    spent.foldl (fun res s =>
        match mapLookup m s with
        | some o => setInsert res o
        | none => res) acc
      = (spent.filter (fun e => decide (e.length = 8))).foldl (fun res s =>
          match mapLookup m s with
          | some o => setInsert res o
          | none => res) acc := by
  induction spent generalizing acc with
  | nil => rfl
  | cons e t ih =>
    by_cases he : e.length = 8
    · rw [List.filter_cons, if_pos (by simp [he])]
      simp only [List.foldl_cons]
      exact ih _
    · have hnone : mapLookup m e = none := by
        refine mapLookup_eq_none_of_keys_ne m e fun p hp hpe => ?_
        exact he (hpe ▸ hk p hp)
      rw [List.filter_cons, if_neg (by simp [he])]
      simp only [List.foldl_cons, hnone]
      exact ih _

theorem collect_spent_outpoints_ignores_non8 (spent : List (List Nat))
    (m : List (List Nat × OutPoint)) (hk : ∀ p ∈ m, p.1.length = 8) :
    collect_spent_outpoints spent m
      = collect_spent_outpoints (spent.filter (fun e => decide (e.length = 8))) m :=
  collect_spent_foldl_filter m spent [] hk

theorem spliceWrite_append (l₁ l₂ src : List Nat) :
    spliceWrite (l₁ ++ l₂) l₁.length src = l₁ ++ (src ++ l₂.drop src.length) := by
  unfold spliceWrite
  rw [List.take_left, List.drop_append_eq_append_drop,
    List.drop_eq_nil_iff.mpr (by omega), Nat.add_sub_cancel_left]
  simp

theorem input_hash_preimage_eq_append (op : OutPoint) (blkhash : List Nat)
    (htx : op.txid.length = 32) (hbh : blkhash.length = 32) :
    input_hash_preimage op blkhash = op.txid ++ leBytes4 op.vout ++ blkhash := by
  have hle : (leBytes4 op.vout).length = 4 := rfl
  have h1 : spliceWrite (List.replicate 68 0) 0 op.txid
      = op.txid ++ List.replicate 36 0 := by
    have h := spliceWrite_append [] (List.replicate 68 0) op.txid
    simp only [List.nil_append, List.length_nil] at h
    rw [h, htx, List.drop_replicate]
  have h2 : spliceWrite (op.txid ++ List.replicate 36 0) 32 (leBytes4 op.vout)
      = op.txid ++ leBytes4 op.vout ++ List.replicate 32 0 := by
    have h := spliceWrite_append op.txid (List.replicate 36 0) (leBytes4 op.vout)
    rw [htx] at h
    rw [h, hle, List.drop_replicate, List.append_assoc]
  have hlen : (op.txid ++ leBytes4 op.vout).length = 36 := by
    rw [List.length_append, htx, hle]
  have h3 : spliceWrite (op.txid ++ leBytes4 op.vout ++ List.replicate 32 0) 36 blkhash
      = op.txid ++ leBytes4 op.vout ++ blkhash := by
    have h := spliceWrite_append (op.txid ++ leBytes4 op.vout) (List.replicate 32 0) blkhash
    rw [hlen, hbh, List.drop_replicate] at h
    simpa using h
  show spliceWrite (spliceWrite (spliceWrite (List.replicate 68 0) 0 op.txid) 32
      (leBytes4 op.vout)) 36 blkhash = _
  rw [h1, h2, h3]

/-! Structural lemmas unfolding the scanner pipeline's projections. -/

theorem process_block_ins_eq (env : ScanEnv) (owned : List OutPoint) (bd : BlockData) :
    (process_block env owned bd).1.2
      = (process_block_inputs env
          (setExtend owned ((process_block env owned bd).1.1.map Prod.fst))
          bd.blkheight bd.spent_filter).1 := rfl

theorem process_block_owned_eq (env : ScanEnv) (owned : List OutPoint) (bd : BlockData) :
    (process_block env owned bd).2.1
      = (setExtend owned ((process_block env owned bd).1.1.map Prod.fst)).filter
          (fun op => decide (op ∉ (process_block env owned bd).1.2)) := rfl

theorem process_block_events_eq (env : ScanEnv) (owned : List OutPoint) (bd : BlockData) :
    (process_block env owned bd).2.2
      = (process_block_outputs env bd.blkheight bd.tweaks bd.new_utxo_filter).2
        ++ (process_block_inputs env
            (setExtend owned ((process_block env owned bd).1.1.map Prod.fst))
            bd.blkheight bd.spent_filter).2 := rfl

theorem process_iteration_outs_eq (env : ScanEnv) (startH endH : Nat)
    (owned : List OutPoint) (bd : BlockData) (elapsed : Bool) :
    (process_iteration env startH endH owned bd elapsed).1.1
      = (process_block env owned bd).1.1 := rfl

theorem process_iteration_ins_eq (env : ScanEnv) (startH endH : Nat)
    (owned : List OutPoint) (bd : BlockData) (elapsed : Bool) :
    (process_iteration env startH endH owned bd elapsed).1.2
      = (process_block env owned bd).1.2 := rfl

theorem process_iteration_owned_eq (env : ScanEnv) (startH endH : Nat)
    (owned : List OutPoint) (bd : BlockData) (elapsed : Bool) :
    (process_iteration env startH endH owned bd elapsed).2.1
      = (process_block env owned bd).2.1 := rfl

theorem process_iteration_events_eq (env : ScanEnv) (startH endH : Nat)
    (owned : List OutPoint) (bd : BlockData) (elapsed : Bool) :
    (process_iteration env startH endH owned bd elapsed).2.2
      = (process_block env owned bd).2.2
        ++ (if (process_block env owned bd).1.1.isEmpty then []
            else [Event.recordOutputs bd.blkheight bd.blkhash (process_block env owned bd).1.1])
        ++ (if (process_block env owned bd).1.2.isEmpty then []
            else [Event.recordInputs bd.blkheight bd.blkhash (process_block env owned bd).1.2])
        ++ [Event.recordProgress startH bd.blkheight endH]
        ++ (if (decide (bd.blkheight = endH) || elapsed)
              || !(process_block env owned bd).1.1.isEmpty
              || !(process_block env owned bd).1.2.isEmpty then [Event.save] else []) := rfl

theorem process_block_outputs_events_shape (env : ScanEnv) (blkheight : Nat)
    (tweaks : List Nat) (filt : FilterData) :
    (process_block_outputs env blkheight tweaks filt).2 = []
      ∨ (process_block_outputs env blkheight tweaks filt).2 = [Event.callUtxos blkheight] := by
  cases tweaks with
  | nil => exact Or.inl rfl
  | cons a t =>
    by_cases h : check_block_outputs env.matchAny filt.data filt.block_hash
        ((env.scriptToSecretMap (a :: t)).map Prod.fst) = true
    · exact Or.inr (by simp [process_block_outputs, h])
    · exact Or.inl (by simp [process_block_outputs, h])

theorem process_block_inputs_events_shape (env : ScanEnv) (owned : List OutPoint)
    (blkheight : Nat) (filt : FilterData) :
    (process_block_inputs env owned blkheight filt).2 = []
      ∨ (process_block_inputs env owned blkheight filt).2 = [Event.callSpentIndex blkheight] := by
  by_cases h : check_block_inputs env.matchAny filt.data filt.block_hash
      ((get_input_hashes env.sha256 owned filt.block_hash).map Prod.fst) = true
  · exact Or.inr (by simp [process_block_inputs, h])
  · exact Or.inl (by simp [process_block_inputs, h])

theorem callUtxos_mem_outputs_events_iff (env : ScanEnv) (blkheight : Nat)
    (tweaks : List Nat) (filt : FilterData) :
    Event.callUtxos blkheight ∈ (process_block_outputs env blkheight tweaks filt).2
      ↔ (tweaks ≠ [] ∧ check_block_outputs env.matchAny filt.data filt.block_hash
            ((env.scriptToSecretMap tweaks).map Prod.fst) = true) := by
  cases tweaks with
  | nil => simp [process_block_outputs]
  | cons a t =>
    by_cases h : check_block_outputs env.matchAny filt.data filt.block_hash
        ((env.scriptToSecretMap (a :: t)).map Prod.fst) = true
    · simp [process_block_outputs, h]
    · simp [process_block_outputs, h]

theorem callSpentIndex_mem_inputs_events_iff (env : ScanEnv) (owned : List OutPoint)
    (blkheight : Nat) (filt : FilterData) :
    Event.callSpentIndex blkheight ∈ (process_block_inputs env owned blkheight filt).2
      ↔ check_block_inputs env.matchAny filt.data filt.block_hash
          ((get_input_hashes env.sha256 owned filt.block_hash).map Prod.fst) = true := by
  by_cases h : check_block_inputs env.matchAny filt.data filt.block_hash
      ((get_input_hashes env.sha256 owned filt.block_hash).map Prod.fst) = true
  · simp [process_block_inputs, h]
  · simp [process_block_inputs, h]

theorem callUtxos_not_mem_inputs_events (env : ScanEnv) (owned : List OutPoint)
    (blkheight : Nat) (filt : FilterData) (h' : Nat) :
    Event.callUtxos h' ∉ (process_block_inputs env owned blkheight filt).2 := by
  rcases process_block_inputs_events_shape env owned blkheight filt with hs | hs <;>
    rw [hs] <;> simp

theorem callSpentIndex_not_mem_outputs_events (env : ScanEnv) (blkheight : Nat)
    (tweaks : List Nat) (filt : FilterData) (h' : Nat) :
    Event.callSpentIndex h' ∉ (process_block_outputs env blkheight tweaks filt).2 := by
  rcases process_block_outputs_events_shape env blkheight tweaks filt with hs | hs <;>
    rw [hs] <;> simp

theorem save_not_mem_process_block_events (env : ScanEnv) (owned : List OutPoint)
    (bd : BlockData) :
    Event.save ∉ (process_block env owned bd).2.2 := by
  rw [process_block_events_eq, List.mem_append]
  rintro (h | h)
  · rcases process_block_outputs_events_shape env bd.blkheight bd.tweaks bd.new_utxo_filter
      with hs | hs <;> rw [hs] at h <;> simp at h
  · rcases process_block_inputs_events_shape env
        (setExtend owned ((process_block env owned bd).1.1.map Prod.fst))
        bd.blkheight bd.spent_filter with hs | hs <;> rw [hs] at h <;> simp at h

/-! Claim theorems. -/

/-- C4: for every processed block bundle, the backend `utxos(h)` fetch (which
is also the only call site of the transaction matcher) appears in the trace
iff the tweak list is non-empty and the output-filter probe over the candidate
script set returns true; the backend `spent_index(h)` fetch appears in the
trace iff the spent-filter probe over the digests of the (output-extended)
owned-outpoint set returns true. In particular a false probe short-circuits:
no `utxos` or `spent_index` call is made for that block. -/
theorem filter_probe_gates_backend_fetches (env : ScanEnv) (owned : List OutPoint)
    (bd : BlockData) :
    (Event.callUtxos bd.blkheight ∈ (process_block env owned bd).2.2
      ↔ (bd.tweaks ≠ [] ∧ check_block_outputs env.matchAny bd.new_utxo_filter.data
            bd.new_utxo_filter.block_hash
            ((env.scriptToSecretMap bd.tweaks).map Prod.fst) = true)) ∧
    (Event.callSpentIndex bd.blkheight ∈ (process_block env owned bd).2.2
      ↔ check_block_inputs env.matchAny bd.spent_filter.data bd.spent_filter.block_hash
          ((get_input_hashes env.sha256
              (setExtend owned ((process_block env owned bd).1.1.map Prod.fst))
              bd.spent_filter.block_hash).map Prod.fst) = true) := by
  constructor
  · rw [process_block_events_eq, List.mem_append, callUtxos_mem_outputs_events_iff]
    have hno := callUtxos_not_mem_inputs_events env
      (setExtend owned ((process_block env owned bd).1.1.map Prod.fst))
      bd.blkheight bd.spent_filter bd.blkheight
    simp [hno]
  · rw [process_block_events_eq, List.mem_append, callSpentIndex_mem_inputs_events_iff]
    have hno := callSpentIndex_not_mem_outputs_events env bd.blkheight bd.tweaks
      bd.new_utxo_filter bd.blkheight
    simp [hno]

/-- C6: within one processed (non-interrupted, non-erroring) loop iteration,
a `save_to_persistent_storage` call happens iff the block is the final height
`end`, the 30-second wall-time reading (oracle `elapsed`) fired, or the
block's processing found a new output or a spent input. -/
theorem save_cadence_iff (env : ScanEnv) (startH endH : Nat) (owned : List OutPoint)
    (bd : BlockData) (elapsed : Bool) :
    Event.save ∈ (process_iteration env startH endH owned bd elapsed).2.2
      ↔ (bd.blkheight = endH ∨ elapsed = true
          ∨ (process_iteration env startH endH owned bd elapsed).1.1 ≠ []
          ∨ (process_iteration env startH endH owned bd elapsed).1.2 ≠ []) := by
  rw [process_iteration_events_eq, process_iteration_outs_eq, process_iteration_ins_eq]
  have hpb := save_not_mem_process_block_events env owned bd
  by_cases h1 : bd.blkheight = endH <;> cases elapsed <;>
    by_cases h2 : (process_block env owned bd).1.1.isEmpty = true <;>
    by_cases h3 : (process_block env owned bd).1.2.isEmpty = true <;>
    simp_all [List.mem_append, List.isEmpty_iff]

/-- C3: if an outpoint is among a block's found outputs and also among its
found inputs (created and spent within the same block), then the
`record_block_outputs` and `record_block_inputs` events for that block carry
it, the found inputs were computed from the owned set already extended with
the found outputs (outputs added before input digests are matched), and the
outpoint is absent from the owned set after the block. -/
theorem same_block_output_spend_recorded_and_removed (env : ScanEnv)
    (startH endH : Nat) (owned : List OutPoint) (bd : BlockData) (elapsed : Bool)
    (op : OutPoint)
    (houts : op ∈ ((process_iteration env startH endH owned bd elapsed).1.1.map Prod.fst))
    (hins : op ∈ (process_iteration env startH endH owned bd elapsed).1.2) :
    Event.recordOutputs bd.blkheight bd.blkhash
        (process_iteration env startH endH owned bd elapsed).1.1
        ∈ (process_iteration env startH endH owned bd elapsed).2.2
    ∧ Event.recordInputs bd.blkheight bd.blkhash
        (process_iteration env startH endH owned bd elapsed).1.2
        ∈ (process_iteration env startH endH owned bd elapsed).2.2
    ∧ (process_iteration env startH endH owned bd elapsed).1.2
        = (process_block_inputs env
            (setExtend owned
              ((process_iteration env startH endH owned bd elapsed).1.1.map Prod.fst))
            bd.blkheight bd.spent_filter).1
    ∧ op ∉ (process_iteration env startH endH owned bd elapsed).2.1 := by
  rw [process_iteration_outs_eq] at houts
  rw [process_iteration_ins_eq] at hins
  have houtne : (process_block env owned bd).1.1 ≠ [] := by
    intro h; rw [h] at houts; simp at houts
  have hinne : (process_block env owned bd).1.2 ≠ [] := List.ne_nil_of_mem hins
  have houtempty : (process_block env owned bd).1.1.isEmpty = false := by
    simp [List.isEmpty_iff, houtne]
  have hinempty : (process_block env owned bd).1.2.isEmpty = false := by
    simp [List.isEmpty_iff, hinne]
  refine ⟨?_, ?_, ?_, ?_⟩
  · rw [process_iteration_events_eq, process_iteration_outs_eq]
    simp [List.mem_append, houtempty]
  · rw [process_iteration_events_eq, process_iteration_ins_eq]
    simp [List.mem_append, hinempty]
  · rw [process_iteration_ins_eq, process_iteration_outs_eq]
    exact process_block_ins_eq env owned bd
  · rw [process_iteration_owned_eq, process_block_owned_eq]
    intro hmem
    rcases List.mem_filter.mp hmem with ⟨_, hdec⟩
    exact (of_decide_eq_true hdec) hins

/-- C5: whenever the cancellation check at the top of a bundle iteration
finds the flag set (oracle `ints` reads true), `process_blocks` saves to
persistent storage and returns `Ok` — the trace of that call is exactly one
save event, so no part of the bundle is processed, no progress is recorded
for it, and the owned set is unchanged. -/
theorem interrupt_flushes_and_returns_ok (env : ScanEnv) (startH endH : Nat)
    (owned : List OutPoint) (bd : BlockData) (rest : List (Except Unit BlockData))
    (ints elas : List Bool) (hint : ints.headD false = true) :
    process_blocks env startH endH owned (Except.ok bd :: rest) ints elas
      = (Except.ok (), owned, [Event.save]) := by
  simp only [process_blocks]
  rw [if_pos hint]

/-- C1 (amended): when the block-data stream yields an `Err` item, the
scanner propagates it at once (`let blockdata = blockdata?`): the call
returns that first fatal error with an empty trace for the iteration — in
particular no `save_to_persistent_storage` happens on the error path, so the
persisted cursor stays wherever the last cadence-triggered save left it. -/
theorem stream_error_returns_error_without_flush (env : ScanEnv) (startH endH : Nat)
    (owned : List OutPoint) (rest : List (Except Unit BlockData)) (ints elas : List Bool) :
    process_blocks env startH endH owned (Except.error () :: rest) ints elas
      = (Except.error (), owned, []) := rfl

/-- C1 (counterexample to the claim as stated): a concrete scan whose stream
yields an `Err` item returns that error with no `save` event in its trace —
`scan_blocks` does not flush committed state before returning the first
fatal error. -/
theorem stream_error_no_flush_counterexample :
    (scan_blocks trivEnv 0 5 [] [Except.error ()] [] []).1 = Except.error ()
    ∧ Event.save ∉ (scan_blocks trivEnv 0 5 [] [Except.error ()] [] []).2.2 := by
  constructor
  · rfl
  · simp [scan_blocks, process_blocks]

/-- C7: the input-hash map built for a block maps the 8-byte key
`first8(sha256(txid(32) || vout_le(4) || block_hash(32)))` of every owned
outpoint to that outpoint (assuming the digests do not collide on the owned
set, which the `HashMap` insert would otherwise resolve by overwriting), and
the map for an empty owned set is empty. -/
theorem input_hash_digest_formula (sha : List Nat → List Nat)
    (owned : List OutPoint) (blkhash : List Nat) (op : OutPoint)
    (hmem : op ∈ owned) (htx : op.txid.length = 32) (hbh : blkhash.length = 32)
    (hinj : ∀ o ∈ owned,
      (sha (input_hash_preimage o blkhash)).take 8
          = (sha (input_hash_preimage op blkhash)).take 8 → o = op) :
    get_input_hashes sha [] blkhash = []
    ∧ mapLookup (get_input_hashes sha owned blkhash)
        ((sha (op.txid ++ leBytes4 op.vout ++ blkhash)).take 8) = some op := by
  refine ⟨rfl, ?_⟩
  rw [← input_hash_preimage_eq_append op blkhash htx hbh]
  exact mapLookup_foldl_insert_self
    (fun o => (sha (input_hash_preimage o blkhash)).take 8) owned [] op hmem hinj

/-- C8: probing either filter with an empty query list returns `false`
independently of the `match_any` oracle (so `match_any` is never consulted),
and with a non-empty candidate list the output probe equals `match_any`
applied to bytes 2..34 of each candidate — the 32-byte x-only part of each
34-byte script. -/
theorem filter_probe_empty_false_and_query_shape
    (matchAny : List Nat → List Nat → List (List Nat) → Bool)
    (filterBytes blkhash : List Nat) (cs : List (List Nat))
    (hne : cs ≠ []) (hlen : ∀ s ∈ cs, s.length = 34) :
    check_block_outputs matchAny filterBytes blkhash [] = false
    ∧ check_block_inputs matchAny filterBytes blkhash [] = false
    ∧ check_block_outputs matchAny filterBytes blkhash cs
        = matchAny filterBytes blkhash (cs.map (fun s => s.drop 2))
    ∧ ∀ q ∈ cs.map (fun s => s.drop 2), q.length = 32 := by
  refine ⟨rfl, rfl, ?_, ?_⟩
  · cases cs with
    | nil => exact absurd rfl hne
    | cons a t => rfl
  · intro q hq
    rcases List.mem_map.mp hq with ⟨s, hs, rfl⟩
    rw [List.length_drop, hlen s hs]

/-- C9: every outpoint collected from the spent index is a value of the
supplied input-hash map; spent-index entries whose length is not 8 bytes are
ignored when all map keys are 8 bytes long (so they match no key); and every
outpoint returned by `process_block_inputs` is in the owned set it was given
— the scanner never removes an outpoint it does not own. -/
theorem spent_collection_only_owned (env : ScanEnv) (owned : List OutPoint)
    (blkheight : Nat) (filt : FilterData) (spent : List (List Nat))
    (m : List (List Nat × OutPoint)) (hk : ∀ p ∈ m, p.1.length = 8) :
    (∀ op ∈ collect_spent_outpoints spent m, ∃ k, mapLookup m k = some op)
    ∧ collect_spent_outpoints spent m
        = collect_spent_outpoints (spent.filter (fun e => decide (e.length = 8))) m
    ∧ ∀ op ∈ (process_block_inputs env owned blkheight filt).1, op ∈ owned := by
  refine ⟨fun op h => collect_spent_outpoints_mem_values spent m op h,
    collect_spent_outpoints_ignores_non8 spent m hk, ?_⟩
  intro op hop
  by_cases hc : check_block_inputs env.matchAny filt.data filt.block_hash
      ((get_input_hashes env.sha256 owned filt.block_hash).map Prod.fst) = true
  · simp only [process_block_inputs, hc, if_pos] at hop
    rcases collect_spent_outpoints_mem_values _ _ _ hop with ⟨k, hkk⟩
    exact get_input_hashes_values_owned env.sha256 owned filt.block_hash op
      (mapLookup_mem_values _ _ _ hkk)
  · simp [process_block_inputs, hc] at hop

/-- C10: for a range starting at height 0, the synchronous
`get_block_data_for_range` of backend-blindbit-native silently advances the
start to 1 — height 0 is never among the requested heights — while the async
`get_block_data_stream` performs no adjustment and requests height 0. -/
theorem genesis_height_adjustment (endH : Nat) :
    get_block_data_for_range_heights 0 endH = rangeIncl 1 endH
    ∧ 0 ∉ get_block_data_for_range_heights 0 endH
    ∧ get_block_data_stream_heights 0 endH = rangeIncl 0 endH
    ∧ 0 ∈ get_block_data_stream_heights 0 endH := by
  refine ⟨rfl, ?_, rfl, ?_⟩
  · intro h
    rw [get_block_data_for_range_heights, if_pos rfl] at h
    rcases List.mem_range'_1.mp h with ⟨h1, _⟩
    omega
  · rw [get_block_data_stream_heights, rangeIncl]
    exact List.mem_range'_1.mpr ⟨Nat.zero_le 0, by omega⟩

/-- C2 (divergence witness): the non-async thread-pool fetcher emits in
completion order: with heights `[1, 2]` submitted in order and a completion
schedule in which height 2's worker finishes first — a permutation of the
task indices, hence a schedule the pool can exhibit — the iterator yields
bundle 2 before bundle 1, unlike the order-preserving `buffered` stream of
the async backend on the same range. -/
theorem thread_pool_completion_order_counterexample :
    List.Perm [1, 0] (List.range 2)
    ∧ thread_pool_emission [1, 2] (fun h => h) [1, 0] = [2, 1]
    ∧ buffered_stream_emission [1, 2] (fun h => h) = [1, 2]
    ∧ thread_pool_emission [1, 2] (fun h => h) [1, 0]
        ≠ buffered_stream_emission [1, 2] (fun h => h) := by
  refine ⟨?_, rfl, rfl, by decide⟩
  decide

/-- Witness for C5 at concrete inputs: the flag reads true on the first
iteration of a one-bundle stream, and the call returns `Ok` with exactly one
save event. -/
theorem interrupt_flushes_witness :
    ([true].headD false = true)
    ∧ process_blocks trivEnv 0 9 [] [Except.ok trivBlock] [true] []
        = (Except.ok (), [], [Event.save]) :=
  ⟨rfl, interrupt_flushes_and_returns_ok trivEnv 0 9 [] trivBlock [] [true] [] rfl⟩

/-- Witness for C3 at concrete inputs: in `sbEnv`, block 5 both creates and
spends `sbOutPoint`. -/
theorem same_block_output_spend_witness :
    (sbOutPoint ∈ ((process_iteration sbEnv 0 9 [] sbBlock false).1.1.map Prod.fst)
      ∧ sbOutPoint ∈ (process_iteration sbEnv 0 9 [] sbBlock false).1.2)
    ∧ (Event.recordOutputs sbBlock.blkheight sbBlock.blkhash
          (process_iteration sbEnv 0 9 [] sbBlock false).1.1
          ∈ (process_iteration sbEnv 0 9 [] sbBlock false).2.2
        ∧ Event.recordInputs sbBlock.blkheight sbBlock.blkhash
            (process_iteration sbEnv 0 9 [] sbBlock false).1.2
            ∈ (process_iteration sbEnv 0 9 [] sbBlock false).2.2
        ∧ (process_iteration sbEnv 0 9 [] sbBlock false).1.2
            = (process_block_inputs sbEnv
                (setExtend []
                  ((process_iteration sbEnv 0 9 [] sbBlock false).1.1.map Prod.fst))
                sbBlock.blkheight sbBlock.spent_filter).1
        ∧ sbOutPoint ∉ (process_iteration sbEnv 0 9 [] sbBlock false).2.1) :=
  ⟨⟨by decide, by decide⟩,
    same_block_output_spend_recorded_and_removed sbEnv 0 9 [] sbBlock false sbOutPoint
      (by decide) (by decide)⟩

/-- Witness for C7 at concrete inputs: identity `sha256` oracle, one owned
outpoint. -/
theorem input_hash_digest_witness :
    (c7Op ∈ [c7Op] ∧ c7Op.txid.length = 32
      ∧ (List.replicate 32 6 : List Nat).length = 32
      ∧ ∀ o ∈ [c7Op],
          (idSha (input_hash_preimage o (List.replicate 32 6))).take 8
              = (idSha (input_hash_preimage c7Op (List.replicate 32 6))).take 8 → o = c7Op)
    ∧ (get_input_hashes idSha [] (List.replicate 32 6) = []
        ∧ mapLookup (get_input_hashes idSha [c7Op] (List.replicate 32 6))
            ((idSha (c7Op.txid ++ leBytes4 c7Op.vout ++ List.replicate 32 6)).take 8)
            = some c7Op) :=
  ⟨⟨by decide, by decide, by decide, by decide⟩,
    input_hash_digest_formula idSha [c7Op] (List.replicate 32 6) c7Op
      (by decide) (by decide) (by decide) (by decide)⟩

/-- Witness for C8 at concrete inputs: one 34-byte candidate script and an
oracle that reports whether the query list is non-empty. -/
theorem filter_probe_witness :
    (([List.replicate 34 7] : List (List Nat)) ≠ []
      ∧ ∀ s ∈ [List.replicate 34 7], s.length = 34)
    ∧ (check_block_outputs (fun (_ _ : List Nat) (q : List (List Nat)) => !q.isEmpty) [] [] [] = false
        ∧ check_block_inputs (fun (_ _ : List Nat) (q : List (List Nat)) => !q.isEmpty) [] [] [] = false
        ∧ check_block_outputs (fun (_ _ : List Nat) (q : List (List Nat)) => !q.isEmpty) [] [] [List.replicate 34 7]
            = (fun (_ _ : List Nat) (q : List (List Nat)) => !q.isEmpty) [] [] ([List.replicate 34 7].map (fun s => s.drop 2))
        ∧ ∀ q ∈ [List.replicate 34 7].map (fun s => s.drop 2), q.length = 32) :=
  ⟨⟨by decide, by decide⟩,
    filter_probe_empty_false_and_query_shape (fun (_ _ : List Nat) (q : List (List Nat)) => !q.isEmpty) [] []
      [List.replicate 34 7] (by decide) (by decide)⟩

/-- Witness for C9 at concrete inputs: a spent index with one malformed
3-byte entry and one matching 8-byte digest. -/
theorem spent_collection_witness :
    (∀ p ∈ [((List.replicate 8 0 : List Nat), sbOutPoint)], p.1.length = 8)
    ∧ ((∀ op ∈ collect_spent_outpoints [[1, 2, 3], List.replicate 8 0]
            [(List.replicate 8 0, sbOutPoint)],
          ∃ k, mapLookup [(List.replicate 8 0, sbOutPoint)] k = some op)
        ∧ collect_spent_outpoints [[1, 2, 3], List.replicate 8 0]
              [(List.replicate 8 0, sbOutPoint)]
            = collect_spent_outpoints
                ([[1, 2, 3], List.replicate 8 0].filter (fun e => decide (e.length = 8)))
                [(List.replicate 8 0, sbOutPoint)]
        ∧ ∀ op ∈ (process_block_inputs trivEnv [] 4 (FilterData.mk [] [])).1,
            op ∈ ([] : List OutPoint)) :=
  ⟨by decide,
    spent_collection_only_owned trivEnv [] 4 (FilterData.mk [] [])
      [[1, 2, 3], List.replicate 8 0] [(List.replicate 8 0, sbOutPoint)] (by decide)⟩

end Spdk
